import Mathlib

/-!
Verification of the strided PSD spectrogram builder of
`gwpy/spectrogram/spectrogram.py`.

The module under study contains two functions:

* `_from_timeseries` — the single-process builder: it strides through a
  time series, computes one PSD per stride via the collaborator method
  `TimeSeries.psd`, stacks the PSDs as rows of a `Spectrogram`, and sets
  the result unit with a `KeyError` fallback;
* `from_timeseries` — the dispatch wrapper: it either delegates to the
  single-process builder (`maxprocesses == 1` or `nsteps == 0`) or
  partitions the series into `nproc` contiguous slices, runs the builder
  on each slice in a worker process, and merges the partial spectrograms
  sorted by epoch.

The collaborator classes `TimeSeries`, `Spectrogram` and
`SpectrogramList` (module `gwpy.timeseries.core` / `gwpy.spectrogram.core`)
and the PSD estimator (`gwpy.spectrum.psd`) are not part of the sources
under study; they are modelled from the spec as explicit structures and
abstract function parameters.  Python float quantities (`stride`,
`fftlength`, `sample_rate`, epochs) are embedded as rationals; the
float-to-int truncations (`int(...)`, float slice indices) are embedded
as floors, which agree with Python truncation on the nonnegative values
arising here.

The optional LAL dependency (lines 139-147) is modelled as absent, i.e.
the `except ImportError: pass` branch is taken; per the spec this must
not be fatal and the builder proceeds with the caller's window and plan.

The worker processes communicate through a result queue, so the
coordinator receives the partial spectrograms in nondeterministic
arrival order — a permutation of launch order — and then sorts them by
epoch.  The partial epochs are strictly increasing in worker index
(proved below), so sorting erases the nondeterminism; the model
therefore collects the partials in launch order before sorting.
-/

/-- Modelled from the spec: the `TimeSeries` collaborator
(`gwpy.timeseries.core` is not under the sources studied): an ordered
sequence of samples at a fixed sample rate, with a start epoch, a
physical unit and an optional channel name (spec §3, §6). -/
structure TimeSeries (α : Type) (μ : Type) where
  data : List α
  sample_rate : ℚ
  epoch : ℚ
  unit : μ
  channel : Option String
deriving DecidableEq

/-- Modelled from the spec: the `Spectrogram` collaborator
(`gwpy.spectrogram.core` is not under the sources studied): a 2-D array
indexed by (time-step, frequency-bin) — `rows` lists the PSD rows,
`ncols` records the allocated column count — together with the metadata
epoch, `dt`, `df`, `f0`, unit and channel (spec §3).  A `Spectrogram`
constructed without a `unit` argument has its unit unset (`none`). -/
structure Spectrogram (μ : Type) where
  rows : List (List ℚ)
  ncols : ℕ
  epoch : ℚ
  dt : ℚ
  df : ℚ
  f0 : ℚ
  unit : Option μ
  channel : Option String
deriving DecidableEq

/-- Python's float-to-int index conversion (`int(...)`, float slice
bounds), which truncates; on the nonnegative quantities arising in this
module truncation is the floor, and negative floats clamp to `0` when
used as a left slice bound of a `List.drop`/`List.take` model. -/
def qIdx (x : ℚ) : ℕ := ⌊x⌋.toNat

/-- Modelled from the spec: index-range slicing `timeseries[a:b]` of the
`TimeSeries` collaborator — an immutable view over the sample range,
whose epoch advances by the start index over the sample rate (spec §3:
"immutable view slicing by index range", epoch = start timestamp). -/
def tsSlice {α μ : Type} (ts : TimeSeries α μ) (a b : ℚ) : TimeSeries α μ :=
  { ts with
      data := (ts.data.take (qIdx b)).drop (qIdx a)
      epoch := ts.epoch + (qIdx a : ℚ) / ts.sample_rate }

/-- Shared expression `int(timeseries.size // stride)` computing the
number of whole strides, where `strideS` is the stride in samples
(`stride * sample_rate`); it appears verbatim at line 62
(`_from_timeseries`) and line 135 (`from_timeseries`). -/
def nstepsOf (size : ℕ) (strideS : ℚ) : ℕ := qIdx ((size : ℚ) / strideS)

/-- Line 163: `nproc = max(1, int(nsteps // minprocesssize))`. -/
def nprocOf (nsteps minprocesssize : ℕ) : ℕ := max 1 (nsteps / minprocesssize)

/-- Line 164: `stepperproc = int(ceil(nsteps / nproc))` (true division
under `from __future__ import division`). -/
def stepperprocOf (nsteps nproc : ℕ) : ℕ := ⌈(nsteps : ℚ) / (nproc : ℚ)⌉.toNat

/-- The single-process builder `_from_timeseries` (lines 41-87).

The collaborators are passed explicitly:
* `psdFun` — modelled from the spec: `stepseries.psd(fftlength,
  fftstride, method, window=window, plan=plan)` returning the PSD data
  as a row (`gwpy.spectrum.psd` is not under the sources studied);
* `udiv` — modelled from the spec: division of the input unit by Hertz
  (`timeseries.unit / units.Hertz`), `none` when the division is
  undefined for the input unit (raises `KeyError`);
* `invHz` — modelled from the spec: the bare inverse-frequency unit
  `1 / units.Hertz`. -/
def _from_timeseries {α W P μ : Type}
    (psdFun : TimeSeries α μ → ℚ → ℚ → String → Option W → Option P → List ℚ)
    (udiv : μ → Option μ) (invHz : μ)
    (timeseries : TimeSeries α μ) (stride : ℚ)
    (fftlength : Option ℚ := none) (fftstride : Option ℚ := none)
    (method : String := "welch") (window : Option W := none)
    (plan : Option P := none) : Spectrogram μ :=
  -- format FFT parameters
  let fftlength := fftlength.getD stride
  let fftstride := fftstride.getD fftlength
  let dt := stride
  let df := 1 / fftlength
  let strideS := stride * timeseries.sample_rate
  -- get size of spectrogram
  let nsteps := nstepsOf timeseries.data.length strideS
  let nfreqs : ℕ := (⌊fftlength * timeseries.sample_rate / 2⌋ + 1).toNat
  -- generate output spectrogram
  let out : Spectrogram μ :=
    { rows := List.replicate nsteps (List.replicate nfreqs 0)
      ncols := nfreqs
      epoch := timeseries.epoch
      dt := dt, df := df, f0 := 0
      unit := none
      channel := timeseries.channel }
  if nsteps = 0 then out
  else
    -- stride through TimeSeries, recording PSDs as rows of spectrogram
    let filled := (List.range nsteps).foldl
      (fun o (step : ℕ) =>
        let idx := strideS * (step : ℚ)
        let idx_end := idx + strideS
        let stepseries := tsSlice timeseries idx idx_end
        let steppsd := psdFun stepseries fftlength fftstride method window plan
        { o with rows := o.rows.set step steppsd }) out
    -- set unit and return
    { filled with unit := some ((udiv timeseries.unit).getD invHz) }

/-- The worker closure `_specgram` applied over the process list (lines
156-172): worker `i` runs `_from_timeseries` on the slice
`timeseries[i * nsamp:(i + 1) * nsamp]`, forwarding `stride`,
`fftlength`, `fftstride`, `method`, `window` and `plan`. -/
def workerSpecgrams {α W P μ : Type}
    (psdFun : TimeSeries α μ → ℚ → ℚ → String → Option W → Option P → List ℚ)
    (udiv : μ → Option μ) (invHz : μ)
    (timeseries : TimeSeries α μ) (stride fftlength fftstride : ℚ)
    (method : String) (window : Option W) (plan : Option P)
    (nproc : ℕ) (nsamp : ℚ) : List (Spectrogram μ) :=
  (List.range nproc).map fun (i : ℕ) =>
    _from_timeseries psdFun udiv invHz
      (tsSlice timeseries ((i : ℚ) * nsamp) (((i : ℚ) + 1) * nsamp))
      stride (some fftlength) (some fftstride) method window plan

/-- Ordering of spectrograms by epoch, the sort key of line 181
(`out.sort(key=lambda spec: spec.epoch.gps)`). -/
def epochLE {μ : Type} (a b : Spectrogram μ) : Prop := a.epoch ≤ b.epoch

instance {μ : Type} : DecidableRel (epochLE (μ := μ)) :=
  fun a b => inferInstanceAs (Decidable (a.epoch ≤ b.epoch))

/-- A zero-row spectrogram with inert metadata, used as the merge result
of an empty list (never reached by the wrapper, whose process list has
`nproc >= 1` entries) and as a lookup default. -/
def emptySpec {μ : Type} : Spectrogram μ :=
  { rows := [], ncols := 0, epoch := 0, dt := 0, df := 0, f0 := 0,
    unit := none, channel := none }

/-- Modelled from the spec: `SpectrogramList.join` (`gwpy.spectrogram.core`
is not under the sources studied) — merge an epoch-sorted list of
partial spectrograms into one by concatenating their rows, keeping the
first part's metadata (spec §3: "mergeable into one Spectrogram by
sorting on epoch and concatenating rows"). -/
def joinAll {μ : Type} : List (Spectrogram μ) → Spectrogram μ
  | [] => emptySpec
  | s :: rest => { s with rows := s.rows ++ (rest.map Spectrogram.rows).flatten }

/-- The dispatch wrapper `from_timeseries` (lines 90-182). -/
def from_timeseries {α W P μ : Type}
    (psdFun : TimeSeries α μ → ℚ → ℚ → String → Option W → Option P → List ℚ)
    (udiv : μ → Option μ) (invHz : μ)
    (timeseries : TimeSeries α μ) (stride : ℚ)
    (fftlength : Option ℚ := none) (fftstride : Option ℚ := none)
    (method : String := "welch") (window : Option W := none)
    (plan : Option P := none) (maxprocesses : ℕ := 1)
    (minprocesssize : ℕ := 500) : Spectrogram μ :=
  -- format FFT parameters
  let fftlength := fftlength.getD stride
  let fftstride := fftstride.getD fftlength
  -- get size of spectrogram
  let nFFT : ℕ := qIdx (fftlength * timeseries.sample_rate)
  let nsteps := nstepsOf timeseries.data.length (stride * timeseries.sample_rate)
  let _nfreqs : ℕ := nFFT / 2 + 1
  -- window and plan generation (lines 139-147): the optional LAL
  -- dependency is modelled as absent, taking the ImportError branch.
  -- single-process return: note line 151-153 does not forward `plan`
  if maxprocesses = 1 ∨ nsteps = 0 then
    _from_timeseries psdFun udiv invHz timeseries stride
      (some fftlength) (some fftstride) method window none
  else
    -- otherwise build process list
    let nproc := nprocOf nsteps minprocesssize
    let stepperproc := stepperprocOf nsteps nproc
    let nsamp : ℚ := (stepperproc : ℚ) * timeseries.sample_rate * stride
    let data := workerSpecgrams psdFun udiv invHz timeseries stride
      fftlength fftstride method window plan nproc nsamp
    -- format and return
    joinAll (data.insertionSort epochLE)

/-! ### Bridging lemmas -/

lemma qIdx_natCast (n : ℕ) : qIdx (n : ℚ) = n := by
  simp [qIdx, Int.floor_natCast]

lemma qIdx_nat_div (a b : ℕ) : qIdx ((a : ℚ) / (b : ℚ)) = a / b := by
  rw [qIdx, Int.floor_toNat, Nat.floor_div_nat, Nat.floor_natCast]

lemma nstepsOf_eq_div (L k : ℕ) : nstepsOf L ((k : ℕ) : ℚ) = L / k := by
  rw [nstepsOf, qIdx_nat_div]

lemma tsSlice_natCast {α μ : Type} (ts : TimeSeries α μ) (a b : ℕ) :
    tsSlice ts (a : ℚ) (b : ℚ) =
      { ts with
          data := (ts.data.take b).drop a
          epoch := ts.epoch + (a : ℚ) / ts.sample_rate } := by
  simp [tsSlice, qIdx_natCast]

/-- Nested drop-take slices compose into a single slice of the original
list when the inner slice stays inside the outer one. -/
lemma slice_slice {β : Type} (l : List β) (A B c d : ℕ) (h : A + d ≤ B) :
    (((l.take B).drop A).take d).drop c = (l.take (A + d)).drop (A + c) := by
  rw [List.drop_take B A, List.take_take, min_eq_left (by omega : d ≤ B - A),
    List.drop_take d c, List.drop_drop, List.drop_take (A + d) (A + c)]
  congr 1
  omega

/-- Composition of index slices: a sub-slice of a slice is a slice of the
original series, as long as the sub-slice stays inside the outer one. -/
lemma tsSlice_comp {α μ : Type} (ts : TimeSeries α μ) (A B c d : ℕ)
    (h : A + d ≤ B) :
    tsSlice (tsSlice ts (A : ℚ) (B : ℚ)) (c : ℚ) (d : ℚ) =
      tsSlice ts ((A + c : ℕ) : ℚ) ((A + d : ℕ) : ℚ) := by
  obtain ⟨dat, R, e, u, ch⟩ := ts
  simp only [tsSlice, qIdx_natCast]
  refine congrArg₂ (fun x y => TimeSeries.mk x R y u ch) ?_ ?_
  · exact slice_slice dat A B c d h
  · push_cast
    rw [add_assoc, div_add_div_same]

lemma fold_set_rows {μ : Type} (g : ℕ → List ℚ) (l : List ℕ) (o : Spectrogram μ) :
    l.foldl (fun o step => { o with rows := o.rows.set step (g step) }) o
      = { o with rows := l.foldl (fun r step => r.set step (g step)) o.rows } := by
  induction l generalizing o with
  | nil => rfl
  | cons a t ih =>
    rw [List.foldl_cons, List.foldl_cons, ih]

lemma foldl_set_range {β : Type} (g : ℕ → β) :
    ∀ (n : ℕ) (l : List β), n ≤ l.length →
      (List.range n).foldl (fun r i => r.set i (g i)) l
        = (List.range n).map g ++ l.drop n := by
  intro n
  induction n with
  | zero => intro l _; simp
  | succ m ih =>
    intro l hl
    rw [List.range_succ, List.foldl_append, ih l (by omega), List.foldl_cons,
      List.foldl_nil, List.set_append]
    have hm : ¬ m < (List.map g (List.range m)).length := by simp
    rw [if_neg hm]
    have hd : l.drop m = l[m] :: l.drop (m + 1) :=
      List.drop_eq_getElem_cons (by omega)
    have hlen : (List.map g (List.range m)).length = m := by simp
    rw [hlen, Nat.sub_self, hd, List.set_cons_zero, List.map_append]
    simp

attribute [ext] TimeSeries Spectrogram

/-- Workhorse characterization of the single-process builder: when the
stride spans a whole number `k` of samples, `_from_timeseries` produces
one PSD row per whole stride, on exactly the sample range
`[i*k, (i+1)*k)`, with the metadata of lines 57-68 and the unit of
lines 69-70 / 83-87 (left unset on the zero-step early return). -/
lemma _from_timeseries_eq {α W P μ : Type}
    (psdFun : TimeSeries α μ → ℚ → ℚ → String → Option W → Option P → List ℚ)
    (udiv : μ → Option μ) (invHz : μ)
    (ts : TimeSeries α μ) (stride : ℚ) (flO fsO : Option ℚ)
    (method : String) (window : Option W) (plan : Option P)
    (k : ℕ) (hk : stride * ts.sample_rate = (k : ℚ)) :
    _from_timeseries psdFun udiv invHz ts stride flO fsO method window plan =
      { rows := (List.range (ts.data.length / k)).map (fun i =>
          psdFun (tsSlice ts ((i * k : ℕ) : ℚ) ((i * k + k : ℕ) : ℚ))
            (flO.getD stride) (fsO.getD (flO.getD stride)) method window plan)
        ncols := (⌊flO.getD stride * ts.sample_rate / 2⌋ + 1).toNat
        epoch := ts.epoch
        dt := stride
        df := 1 / flO.getD stride
        f0 := 0
        unit := if ts.data.length / k = 0 then none
                else some ((udiv ts.unit).getD invHz)
        channel := ts.channel } := by
  have harg : ∀ i : ℕ,
      tsSlice ts (stride * ts.sample_rate * (i : ℚ))
          (stride * ts.sample_rate * (i : ℚ) + stride * ts.sample_rate)
        = tsSlice ts ((i * k : ℕ) : ℚ) ((i * k + k : ℕ) : ℚ) := by
    intro i
    rw [hk]
    push_cast
    ring_nf
  have hn : nstepsOf ts.data.length (stride * ts.sample_rate)
      = ts.data.length / k := by
    rw [hk, nstepsOf_eq_div]
  simp only [_from_timeseries, hn]
  by_cases h0 : ts.data.length / k = 0
  · simp [h0]
  · rw [if_neg h0, if_neg h0]
    simp only [harg]
    rw [fold_set_rows
        (fun step => psdFun (tsSlice ts ((step * k : ℕ) : ℚ) ((step * k + k : ℕ) : ℚ))
          (flO.getD stride) (fsO.getD (flO.getD stride)) method window plan),
      foldl_set_range
        (fun step => psdFun (tsSlice ts ((step * k : ℕ) : ℚ) ((step * k + k : ℕ) : ℚ))
          (flO.getD stride) (fsO.getD (flO.getD stride)) method window plan)
        (ts.data.length / k) _ (by simp)]
    simp

/-- Number of whole strides inside worker `i`'s slice: the slice
`[i*(q*k), (i+1)*(q*k))` of an `L`-sample series contains
`min q (L/k - i*q)` whole strides of `k` samples. -/
lemma slice_steps (L k q i : ℕ) (hk : 1 ≤ k) :
    (min ((i + 1) * (q * k)) L - i * (q * k)) / k = min q (L / k - i * q) := by
  rcases le_or_lt ((i + 1) * (q * k)) L with h1 | h1
  · rw [min_eq_left h1]
    have hstep : (i + 1) * (q * k) - i * (q * k) = q * k := by ring_nf; omega
    rw [hstep, Nat.mul_div_cancel q hk]
    have hq : (i * q + q) * k ≤ L := by
      calc (i * q + q) * k = (i + 1) * (q * k) := by ring
        _ ≤ L := h1
    have hle : i * q + q ≤ L / k := (Nat.le_div_iff_mul_le hk).mpr hq
    omega
  · rw [min_eq_right (by omega : L ≤ (i + 1) * (q * k))]
    rcases le_or_lt (i * (q * k)) L with h2 | h2
    · have hA : i * (q * k) = k * (i * q) := by ring
      have hdiv : (L - k * (i * q)) / k = L / k - i * q :=
        Nat.sub_mul_div L k (i * q) (by omega)
      rw [hA, hdiv]
      have hlt : L / k < i * q + q := by
        rw [Nat.div_lt_iff_lt_mul (by omega : 0 < k)]
        calc L < (i + 1) * (q * k) := h1
          _ = (i * q + q) * k := by ring
      omega
    · have h0 : L - i * (q * k) = 0 := by omega
      have hlt : L / k < i * q + 1 := by
        rw [Nat.div_lt_iff_lt_mul (by omega : 0 < k)]
        calc L < i * (q * k) := h2
          _ ≤ (i * q + 1) * k := by nlinarith
      have hz : L / k - i * q = 0 := by omega
      rw [h0, Nat.zero_div, hz]
      simp

/-- Bridge from the Python `int(ceil(nsteps / nproc))` to the usual
natural-number ceiling division. -/
lemma stepperprocOf_eq (n p : ℕ) (hp : 1 ≤ p) :
    stepperprocOf n p = (n + p - 1) / p := by
  rw [stepperprocOf, Int.ceil_toNat]
  have hp0 : (0 : ℚ) < (p : ℚ) := by exact_mod_cast hp
  obtain ⟨m, hm⟩ : ∃ m, (n + p - 1) / p = m := ⟨_, rfl⟩
  have hub : m * p ≤ n + p - 1 := by
    rw [← hm]; exact Nat.div_mul_le_self _ _
  have hlb : n + p - 1 < (m + 1) * p :=
    (Nat.div_lt_iff_lt_mul (by omega : 0 < p)).mp (by rw [hm]; omega)
  rw [hm]
  rcases Nat.eq_zero_or_pos m with hm0 | hm1
  · subst hm0
    have hn0 : n = 0 := by omega
    subst hn0
    simp
  · obtain ⟨mm, rfl⟩ : ∃ mm, m = mm + 1 := ⟨m - 1, by omega⟩
    have hexp1 : (mm + 1) * p = mm * p + p := by ring
    have hexp2 : (mm + 1 + 1) * p = (mm + 1) * p + p := by ring
    rw [Nat.ceil_eq_iff (by omega)]
    constructor
    · rw [lt_div_iff₀ hp0]
      have h2 : (mm + 1 - 1) * p < n := by
        have h3 : mm + 1 - 1 = mm := by omega
        rw [h3]
        omega
      exact_mod_cast h2
    · rw [div_le_iff₀ hp0]
      have h3 : n ≤ (mm + 1) * p := by omega
      exact_mod_cast h3

lemma stepperprocOf_mul_ge (n p : ℕ) (hp : 1 ≤ p) :
    n ≤ p * stepperprocOf n p := by
  rw [stepperprocOf_eq n p hp]
  obtain ⟨m, hm⟩ : ∃ m, (n + p - 1) / p = m := ⟨_, rfl⟩
  have hlb : n + p - 1 < (m + 1) * p :=
    (Nat.div_lt_iff_lt_mul (by omega : 0 < p)).mp (by rw [hm]; omega)
  have hexp : (m + 1) * p = m * p + p := by ring
  have hpm : p * m = m * p := by ring
  rw [hm]
  omega

lemma stepperprocOf_pos (n p : ℕ) (hn : 1 ≤ n) (hp : 1 ≤ p) :
    1 ≤ stepperprocOf n p := by
  rw [stepperprocOf_eq n p hp]
  exact (Nat.le_div_iff_mul_le (by omega)).mpr (by omega)

/-- Concatenating the per-worker stride ranges `[i*q, i*q + min q (n - i*q))`
for `i < p` reconstructs the contiguous range `[0, min (p*q) n)`. -/
lemma flatten_strides {β : Type} (g : ℕ → β) (q : ℕ) :
    ∀ (p n : ℕ), ((List.range p).map (fun i =>
        (List.range (min q (n - i * q))).map (fun j => g (i * q + j)))).flatten
      = (List.range (min (p * q) n)).map g := by
  intro p
  induction p with
  | zero => intro n; simp
  | succ m ih =>
    intro n
    rw [List.range_succ, List.map_append, List.flatten_append, ih n]
    simp only [List.map_cons, List.map_nil, List.flatten_cons, List.flatten_nil,
      List.append_nil]
    have hexp : (m + 1) * q = m * q + q := by ring
    have hsplit : min ((m + 1) * q) n = min (m * q) n + min q (n - m * q) := by
      omega
    rw [hsplit, List.range_add, List.map_append, List.map_map]
    congr 1
    rcases le_or_lt n (m * q) with hle | hgt
    · have hz : min q (n - m * q) = 0 := by omega
      simp [hz]
    · have hmin : min (m * q) n = m * q := by omega
      rw [hmin]
      rfl

/-- Characterization of worker `i`'s partial spectrogram: worker `i`
receives the slice `[i*(q*k), (i+1)*(q*k))` of the input, so its rows
are the PSDs of the whole strides `i*q + j` (`j < min q (n - i*q)`) of
the original series, and its epoch is offset by `i*(q*k)` samples. -/
lemma workerSpecgrams_eq {α W P μ : Type}
    (psdFun : TimeSeries α μ → ℚ → ℚ → String → Option W → Option P → List ℚ)
    (udiv : μ → Option μ) (invHz : μ)
    (ts : TimeSeries α μ) (stride fl fs : ℚ)
    (method : String) (window : Option W) (plan : Option P)
    (k q p : ℕ) (hk : stride * ts.sample_rate = (k : ℚ)) (hk1 : 1 ≤ k) :
    workerSpecgrams psdFun udiv invHz ts stride fl fs method window plan
        p ((q : ℚ) * ts.sample_rate * stride)
      = (List.range p).map (fun i =>
          { rows := (List.range (min q (ts.data.length / k - i * q))).map (fun j =>
              psdFun (tsSlice ts (((i * q + j) * k : ℕ) : ℚ)
                  (((i * q + j) * k + k : ℕ) : ℚ)) fl fs method window plan)
            ncols := (⌊fl * ts.sample_rate / 2⌋ + 1).toNat
            epoch := ts.epoch + ((i * (q * k) : ℕ) : ℚ) / ts.sample_rate
            dt := stride
            df := 1 / fl
            f0 := 0
            unit := if min q (ts.data.length / k - i * q) = 0 then none
                    else some ((udiv ts.unit).getD invHz)
            channel := ts.channel }) := by
  rw [workerSpecgrams]
  refine List.map_congr_left ?_
  intro i _
  have hbound : ∀ x : ℕ, (x : ℚ) * ((q : ℚ) * ts.sample_rate * stride)
      = ((x * (q * k) : ℕ) : ℚ) := by
    intro x
    push_cast
    calc (x : ℚ) * ((q : ℚ) * ts.sample_rate * stride)
        = (x : ℚ) * (q : ℚ) * (stride * ts.sample_rate) := by ring
      _ = (x : ℚ) * ((q : ℚ) * (k : ℚ)) := by rw [hk]; ring
  have hslice : tsSlice ts ((i : ℚ) * ((q : ℚ) * ts.sample_rate * stride))
      (((i : ℚ) + 1) * ((q : ℚ) * ts.sample_rate * stride))
      = tsSlice ts ((i * (q * k) : ℕ) : ℚ) (((i + 1) * (q * k) : ℕ) : ℚ) := by
    rw [show ((i : ℚ) + 1) = (((i + 1 : ℕ)) : ℚ) by push_cast; ring,
      hbound i, hbound (i + 1)]
  rw [hslice]
  -- the slice keeps the sample rate, so the stride still spans k samples
  have hk' : stride * (tsSlice ts ((i * (q * k) : ℕ) : ℚ)
      (((i + 1) * (q * k) : ℕ) : ℚ)).sample_rate = (k : ℚ) := by
    rw [tsSlice_natCast]
    exact hk
  rw [_from_timeseries_eq psdFun udiv invHz _ stride (some fl) (some fs)
    method window plan k hk']
  have hlen : (tsSlice ts ((i * (q * k) : ℕ) : ℚ)
      (((i + 1) * (q * k) : ℕ) : ℚ)).data.length
      = min ((i + 1) * (q * k)) ts.data.length - i * (q * k) := by
    rw [tsSlice_natCast]
    simp [List.length_drop, List.length_take]
  have hsteps : (tsSlice ts ((i * (q * k) : ℕ) : ℚ)
      (((i + 1) * (q * k) : ℕ) : ℚ)).data.length / k
      = min q (ts.data.length / k - i * q) := by
    rw [hlen]
    exact slice_steps ts.data.length k q i hk1
  rw [hsteps]
  refine congrArg₂ (fun x y => Spectrogram.mk x _ y stride (1 / fl) 0 _ _) ?_ ?_
  · -- rows: rewrite each inner sub-slice as a slice of the original series
    refine List.map_congr_left ?_
    intro j hj
    have hjq : j + 1 ≤ q := by
      have := List.mem_range.mp hj
      omega
    have hcomp := tsSlice_comp ts (i * (q * k)) ((i + 1) * (q * k))
      (j * k) (j * k + k)
      (by nlinarith [hjq])
    rw [hcomp]
    have e1 : i * (q * k) + j * k = (i * q + j) * k := by ring
    have e2 : i * (q * k) + (j * k + k) = (i * q + j) * k + k := by ring
    rw [e1, e2]
    rfl
  · -- epoch of the worker slice
    rw [tsSlice_natCast]

/-- The partial spectrograms leave the workers with strictly increasing
epochs (worker `i` starts `i*(q*k)` samples into the series), so the
epoch sort of line 181 leaves them in launch order. -/
lemma workerSpecgrams_sort_eq {α W P μ : Type}
    (psdFun : TimeSeries α μ → ℚ → ℚ → String → Option W → Option P → List ℚ)
    (udiv : μ → Option μ) (invHz : μ)
    (ts : TimeSeries α μ) (stride fl fs : ℚ)
    (method : String) (window : Option W) (plan : Option P)
    (k q p : ℕ) (hk : stride * ts.sample_rate = (k : ℚ)) (hk1 : 1 ≤ k)
    (hR : 0 < ts.sample_rate) :
    (workerSpecgrams psdFun udiv invHz ts stride fl fs method window plan
        p ((q : ℚ) * ts.sample_rate * stride)).insertionSort epochLE
      = workerSpecgrams psdFun udiv invHz ts stride fl fs method window plan
        p ((q : ℚ) * ts.sample_rate * stride) := by
  apply List.Sorted.insertionSort_eq
  rw [workerSpecgrams_eq psdFun udiv invHz ts stride fl fs method window plan
    k q p hk hk1]
  refine List.Pairwise.map _ (fun a b hab => ?_) (List.pairwise_lt_range p)
  show _ + ((a * (q * k) : ℕ) : ℚ) / ts.sample_rate
    ≤ _ + ((b * (q * k) : ℕ) : ℚ) / ts.sample_rate
  have hmul : ((a * (q * k) : ℕ) : ℚ) ≤ ((b * (q * k) : ℕ) : ℚ) := by
    exact_mod_cast Nat.mul_le_mul_right _ (le_of_lt hab)
  gcongr

lemma joinAll_rows {μ : Type} (l : List (Spectrogram μ)) (h : l ≠ []) :
    (joinAll l).rows = (l.map Spectrogram.rows).flatten := by
  cases l with
  | nil => exact absurd rfl h
  | cons s rest => simp [joinAll]

/-- Single-process dispatch (lines 149-153): when `maxprocesses == 1` or
`nsteps == 0`, the wrapper returns the single-process builder's result —
computed with the caller's parameters except that `plan` is not
forwarded. -/
lemma from_timeseries_single_eq {α W P μ : Type}
    (psdFun : TimeSeries α μ → ℚ → ℚ → String → Option W → Option P → List ℚ)
    (udiv : μ → Option μ) (invHz : μ)
    (ts : TimeSeries α μ) (stride : ℚ) (flO fsO : Option ℚ)
    (method : String) (window : Option W) (plan : Option P)
    (maxprocesses minprocesssize : ℕ)
    (h : maxprocesses = 1 ∨ nstepsOf ts.data.length (stride * ts.sample_rate) = 0) :
    from_timeseries psdFun udiv invHz ts stride flO fsO method window plan
        maxprocesses minprocesssize
      = _from_timeseries psdFun udiv invHz ts stride flO fsO method window none := by
  simp only [from_timeseries]
  rw [if_pos h]
  rfl

/-- Rows of the multi-process path: partitioning into `nproc` slices of
`stepperproc` strides each, building per-slice spectrograms, sorting by
epoch and concatenating reproduces exactly the per-stride PSD rows of
the whole series. -/
lemma from_timeseries_multi_rows {α W P μ : Type}
    (psdFun : TimeSeries α μ → ℚ → ℚ → String → Option W → Option P → List ℚ)
    (udiv : μ → Option μ) (invHz : μ)
    (ts : TimeSeries α μ) (stride : ℚ) (flO fsO : Option ℚ)
    (method : String) (window : Option W) (plan : Option P)
    (maxprocesses minprocesssize : ℕ)
    (k : ℕ) (hk : stride * ts.sample_rate = (k : ℚ)) (hk1 : 1 ≤ k)
    (hR : 0 < ts.sample_rate) (hmp : maxprocesses ≠ 1)
    (hn : ts.data.length / k ≠ 0) :
    (from_timeseries psdFun udiv invHz ts stride flO fsO method window plan
        maxprocesses minprocesssize).rows
      = (List.range (ts.data.length / k)).map (fun t =>
          psdFun (tsSlice ts ((t * k : ℕ) : ℚ) ((t * k + k : ℕ) : ℚ))
            (flO.getD stride) (fsO.getD (flO.getD stride)) method window plan) := by
  have hnsteps : nstepsOf ts.data.length (stride * ts.sample_rate)
      = ts.data.length / k := by
    rw [hk, nstepsOf_eq_div]
  simp only [from_timeseries, hnsteps]
  rw [if_neg (by push_neg; exact ⟨hmp, hn⟩)]
  have hp1 : 1 ≤ nprocOf (ts.data.length / k) minprocesssize := le_max_left _ _
  have hq1 : 1 ≤ stepperprocOf (ts.data.length / k)
      (nprocOf (ts.data.length / k) minprocesssize) :=
    stepperprocOf_pos _ _ (by omega) hp1
  have hnpq : ts.data.length / k
      ≤ nprocOf (ts.data.length / k) minprocesssize
        * stepperprocOf (ts.data.length / k)
            (nprocOf (ts.data.length / k) minprocesssize) :=
    stepperprocOf_mul_ge _ _ hp1
  rw [workerSpecgrams_sort_eq psdFun udiv invHz ts stride _ _ method window plan
    k _ _ hk hk1 hR]
  rw [joinAll_rows _ (by
    simp only [workerSpecgrams, ne_eq, List.map_eq_nil_iff, List.range_eq_nil]
    omega)]
  rw [workerSpecgrams_eq psdFun udiv invHz ts stride _ _ method window plan
    k _ _ hk hk1]
  rw [List.map_map]
  have hflat := flatten_strides (fun t =>
      psdFun (tsSlice ts ((t * k : ℕ) : ℚ) ((t * k + k : ℕ) : ℚ))
        (flO.getD stride) (fsO.getD (flO.getD stride)) method window plan)
    (stepperprocOf (ts.data.length / k)
      (nprocOf (ts.data.length / k) minprocesssize))
    (nprocOf (ts.data.length / k) minprocesssize)
    (ts.data.length / k)
  rw [min_eq_right hnpq] at hflat
  rw [← hflat]
  rfl

/-! ### Concrete fixtures for witnesses and counterexamples -/

/-- A PSD stub whose output records the sub-series sum, its epoch and
the `plan` argument, so that results are sensitive to every forwarded
parameter. -/
def psdProbe : TimeSeries ℚ ℕ → ℚ → ℚ → String → Option Unit → Option ℕ → List ℚ :=
  fun s _ _ _ _ plan => [s.data.sum, s.epoch, ((plan.getD 0 : ℕ) : ℚ)]

/-- A PSD stub returning rows of the 51 frequency bins expected for
`fftlength = 1 s` at 100 Hz. -/
def psd51 : TimeSeries ℚ ℕ → ℚ → ℚ → String → Option Unit → Option ℕ → List ℚ :=
  fun _ _ _ _ _ _ => List.replicate 51 0

/-- Unit division that succeeds (`u / Hz` modelled as `u + 1`). -/
def udivSucc : ℕ → Option ℕ := fun u => some (u + 1)

/-- Unit division that is undefined for every input unit. -/
def udivNone : ℕ → Option ℕ := fun _ => none

/-- The spec's example series: 10 seconds at 100 Hz (1000 samples). -/
def tsTen : TimeSeries ℚ ℕ :=
  { data := List.replicate 1000 0, sample_rate := 100, epoch := 0, unit := 5,
    channel := none }

/-- A series shorter than one stride (1 sample at 1 Hz, stride 2 s). -/
def tsShort : TimeSeries ℚ ℕ :=
  { data := [1], sample_rate := 1, epoch := 7, unit := 5, channel := none }

/-- A 5-sample series at 1 Hz. -/
def tsFive : TimeSeries ℚ ℕ :=
  { data := [10, 20, 30, 40, 50], sample_rate := 1, epoch := 100, unit := 5,
    channel := none }

lemma tsFive_nsteps :
    nstepsOf tsFive.data.length ((1 : ℚ) * tsFive.sample_rate) = 5 := by
  have h : (1 : ℚ) * tsFive.sample_rate = ((1 : ℕ) : ℚ) := by norm_num [tsFive]
  rw [h, nstepsOf_eq_div]
  rfl

lemma tsShort_nsteps :
    nstepsOf tsShort.data.length ((2 : ℚ) * tsShort.sample_rate) = 0 := by
  have h : (2 : ℚ) * tsShort.sample_rate = ((2 : ℕ) : ℚ) := by norm_num [tsShort]
  rw [h, nstepsOf_eq_div]
  rfl

/-! ### Claims -/

/-- C10. Omitting `fftlength` is the same as passing `fftlength = stride`,
and omitting `fftstride` is the same as passing `fftstride = fftlength`
(the effective FFT length), both in the single-process builder
(lines 52-56) and in the dispatch wrapper (lines 127-131). -/
theorem C10_fft_defaults {α W P μ : Type}
    (psdFun : TimeSeries α μ → ℚ → ℚ → String → Option W → Option P → List ℚ)
    (udiv : μ → Option μ) (invHz : μ)
    (ts : TimeSeries α μ) (stride : ℚ) (flO fsO : Option ℚ)
    (method : String) (window : Option W) (plan : Option P)
    (maxprocesses minprocesssize : ℕ) :
    (_from_timeseries psdFun udiv invHz ts stride none fsO method window plan
       = _from_timeseries psdFun udiv invHz ts stride (some stride) fsO method
           window plan)
    ∧ (_from_timeseries psdFun udiv invHz ts stride flO none method window plan
       = _from_timeseries psdFun udiv invHz ts stride flO
           (some (flO.getD stride)) method window plan)
    ∧ (from_timeseries psdFun udiv invHz ts stride none fsO method window plan
         maxprocesses minprocesssize
       = from_timeseries psdFun udiv invHz ts stride (some stride) fsO method
           window plan maxprocesses minprocesssize)
    ∧ (from_timeseries psdFun udiv invHz ts stride flO none method window plan
         maxprocesses minprocesssize
       = from_timeseries psdFun udiv invHz ts stride flO
           (some (flO.getD stride)) method window plan maxprocesses
           minprocesssize) :=
  ⟨rfl, rfl, rfl, rfl⟩

/-- C7 counterexample: with `maxprocesses = 1`, `from_timeseries` does
not forward `plan` to the single-process builder (line 151-153 omits
`plan=plan`), so for a PSD estimator sensitive to the plan the results
differ at `plan = some 7`. -/
theorem C7_plan_not_forwarded_cex :
    from_timeseries psdProbe udivSucc 99 tsFive 1 none none "welch" none
        (some 7) 1 500
      ≠ _from_timeseries psdProbe udivSucc 99 tsFive 1 none none "welch" none
        (some 7) := by
  intro h
  have h0 := congrArg (fun S => S.rows[0]?) h
  rw [from_timeseries_single_eq psdProbe udivSucc 99 tsFive 1 none none
    "welch" none (some 7) 1 500 (Or.inl rfl)] at h0
  rw [_from_timeseries_eq psdProbe udivSucc 99 tsFive 1 none none "welch"
      none none 1 (by norm_num [tsFive]),
    _from_timeseries_eq psdProbe udivSucc 99 tsFive 1 none none "welch"
      none (some 7) 1 (by norm_num [tsFive])] at h0
  norm_num [tsFive, psdProbe] at h0

/-- C7 (amended). With `maxprocesses = 1` or `nsteps = 0` the wrapper
delegates to `_from_timeseries` with the same timeseries, stride,
fftlength, fftstride, method and window arguments, but with `plan`
reset to `None` rather than forwarded. -/
theorem C7_single_dispatch {α W P μ : Type}
    (psdFun : TimeSeries α μ → ℚ → ℚ → String → Option W → Option P → List ℚ)
    (udiv : μ → Option μ) (invHz : μ)
    (ts : TimeSeries α μ) (stride : ℚ) (flO fsO : Option ℚ)
    (method : String) (window : Option W) (plan : Option P)
    (maxprocesses minprocesssize : ℕ)
    (h : maxprocesses = 1
      ∨ nstepsOf ts.data.length (stride * ts.sample_rate) = 0) :
    from_timeseries psdFun udiv invHz ts stride flO fsO method window plan
        maxprocesses minprocesssize
      = _from_timeseries psdFun udiv invHz ts stride flO fsO method window
          none :=
  from_timeseries_single_eq psdFun udiv invHz ts stride flO fsO method window
    plan maxprocesses minprocesssize h

theorem C7_single_dispatch_witness :
    from_timeseries psdProbe udivSucc 99 tsFive 1 none none "welch" none
        (some 7) 1 500
      = _from_timeseries psdProbe udivSucc 99 tsFive 1 none none "welch" none
        none :=
  C7_single_dispatch psdProbe udivSucc 99 tsFive 1 none none "welch" none
    (some 7) 1 500 (Or.inl rfl)

/-- C4 counterexample: on a zero-step input (1 sample, stride 2 s at
1 Hz) the early return of lines 69-70 skips the unit assignment of
lines 83-87, so the result unit is unset rather than the input unit
per Hertz. -/
theorem C4_unit_unset_cex :
    (_from_timeseries psdProbe udivSucc 99 tsShort 2 none none "welch" none
        none).unit
      ≠ some ((udivSucc tsShort.unit).getD 99) := by
  rw [_from_timeseries_eq psdProbe udivSucc 99 tsShort 2 none none "welch"
    none none 2 (by norm_num [tsShort])]
  simp [tsShort, udivSucc]

/-- C4 (amended). For `nsteps = 0` the builder returns, without failing,
a zero-row spectrogram with epoch equal to the input's epoch,
`dt = stride`, `df = 1/fftlength`, `f0 = 0` and the input's channel —
but its unit is left at the constructor default (unset), because the
early return happens before the unit assignment. -/
theorem C4_zero_steps {α W P μ : Type}
    (psdFun : TimeSeries α μ → ℚ → ℚ → String → Option W → Option P → List ℚ)
    (udiv : μ → Option μ) (invHz : μ)
    (ts : TimeSeries α μ) (stride : ℚ) (flO fsO : Option ℚ)
    (method : String) (window : Option W) (plan : Option P)
    (h0 : nstepsOf ts.data.length (stride * ts.sample_rate) = 0) :
    _from_timeseries psdFun udiv invHz ts stride flO fsO method window plan
      = { rows := []
          ncols := (⌊flO.getD stride * ts.sample_rate / 2⌋ + 1).toNat
          epoch := ts.epoch
          dt := stride
          df := 1 / flO.getD stride
          f0 := 0
          unit := none
          channel := ts.channel } := by
  simp [_from_timeseries, h0]

theorem C4_zero_steps_witness :
    _from_timeseries psdProbe udivSucc 99 tsShort 2 none none "welch" none none
      = { rows := []
          ncols := 2
          epoch := 7
          dt := 2
          df := 1 / 2
          f0 := 0
          unit := none
          channel := none } := by
  have h := C4_zero_steps psdProbe udivSucc 99 tsShort 2 none none "welch"
    none none tsShort_nsteps
  rw [h]
  norm_num [tsShort]
  decide

/-- C8 counterexample: on a zero-step input whose unit division is
undefined, the builder never reaches the fallback of lines 83-87, so
the result unit is unset, not the bare inverse-frequency unit. -/
theorem C8_unit_not_set_cex :
    (_from_timeseries psdProbe udivNone 99 tsShort 2 none none "welch" none
        none).unit
      ≠ some 99 := by
  rw [_from_timeseries_eq psdProbe udivNone 99 tsShort 2 none none "welch"
    none none 2 (by norm_num [tsShort])]
  simp [tsShort]

/-- C8 (amended). For every input with at least one whole stride
(`nsteps >= 1`), the builder does not raise: a defined unit division
yields `input unit / Hertz`, and an undefined one is caught locally and
replaced by the bare inverse-frequency unit — both captured by the
`getD` fallback. -/
theorem C8_unit_fallback {α W P μ : Type}
    (psdFun : TimeSeries α μ → ℚ → ℚ → String → Option W → Option P → List ℚ)
    (udiv : μ → Option μ) (invHz : μ)
    (ts : TimeSeries α μ) (stride : ℚ) (flO fsO : Option ℚ)
    (method : String) (window : Option W) (plan : Option P)
    (h1 : nstepsOf ts.data.length (stride * ts.sample_rate) ≠ 0) :
    (_from_timeseries psdFun udiv invHz ts stride flO fsO method window
        plan).unit
      = some ((udiv ts.unit).getD invHz) := by
  simp only [_from_timeseries]
  rw [if_neg h1]

theorem C8_unit_fallback_witness :
    (_from_timeseries psdProbe udivSucc 99 tsFive 1 none none "welch" none
        none).unit
      = some ((udivSucc tsFive.unit).getD 99) :=
  C8_unit_fallback psdProbe udivSucc 99 tsFive 1 none none "welch" none none
    (by rw [tsFive_nsteps]; omega)

/-- C9. `maxprocesses` does not bound the worker count: once it is not
`1`, the multi-process path is identical for every value of
`maxprocesses` (the worker count is `nprocOf nsteps minprocesssize`
alone), and e.g. `nsteps = 3000`, `minprocesssize = 500` launches
`nprocOf 3000 500 = 6 > 2` workers even with `maxprocesses = 2`. -/
theorem C9_maxprocesses_not_a_bound {α W P μ : Type}
    (psdFun : TimeSeries α μ → ℚ → ℚ → String → Option W → Option P → List ℚ)
    (udiv : μ → Option μ) (invHz : μ)
    (ts : TimeSeries α μ) (stride : ℚ) (flO fsO : Option ℚ)
    (method : String) (window : Option W) (plan : Option P)
    (minprocesssize : ℕ) :
    (∀ mp mp' : ℕ, mp ≠ 1 → mp' ≠ 1 →
        from_timeseries psdFun udiv invHz ts stride flO fsO method window plan
            mp minprocesssize
          = from_timeseries psdFun udiv invHz ts stride flO fsO method window
              plan mp' minprocesssize)
    ∧ nprocOf 3000 500 = 6 ∧ 2 < nprocOf 3000 500 := by
  refine ⟨?_, by decide, by decide⟩
  intro mp mp' hmp hmp'
  by_cases h0 : nstepsOf ts.data.length (stride * ts.sample_rate) = 0
  · rw [from_timeseries_single_eq psdFun udiv invHz ts stride flO fsO method
      window plan mp minprocesssize (Or.inr h0),
      from_timeseries_single_eq psdFun udiv invHz ts stride flO fsO method
      window plan mp' minprocesssize (Or.inr h0)]
  · simp only [from_timeseries]
    rw [if_neg (by push_neg; exact ⟨hmp, h0⟩),
      if_neg (by push_neg; exact ⟨hmp', h0⟩)]

theorem C9_maxprocesses_not_a_bound_witness :
    from_timeseries psdProbe udivSucc 99 tsFive 1 none none "welch" none none
        2 2
      = from_timeseries psdProbe udivSucc 99 tsFive 1 none none "welch" none
          none 6 2 :=
  (C9_maxprocesses_not_a_bound psdProbe udivSucc 99 tsFive 1 none none "welch"
    none none 2).1 2 6 (by decide) (by decide)

lemma getD_map_range {β : Type} (f : ℕ → β) (p i : ℕ) (d : β) (h : i < p) :
    ((List.range p).map f).getD i d = f i := by
  simp [List.getD_eq_getElem?_getD, List.getElem?_map, List.getElem?_range h]

lemma sum_min_strides (q p n : ℕ) (hnpq : n ≤ p * q) :
    ((List.range p).map (fun i => min q (n - i * q))).sum = n := by
  have h := congrArg List.length (flatten_strides (fun t : ℕ => t) q p n)
  rw [List.length_flatten, List.map_map] at h
  have h2 : (List.length ∘ fun i =>
      List.map (fun j => i * q + j) (List.range (min q (n - i * q))))
      = fun i => min q (n - i * q) := funext fun i => by simp
  rw [h2, min_eq_right hnpq] at h
  simpa using h

lemma tsTen_nsteps :
    nstepsOf tsTen.data.length ((2 : ℚ) * tsTen.sample_rate) = 5 := by
  have h : (2 : ℚ) * tsTen.sample_rate = ((200 : ℕ) : ℚ) := by
    norm_num [tsTen]
  rw [h, nstepsOf_eq_div]
  norm_num [tsTen]

/-- C3. Output shape of the builder: `dt = stride`, `df = 1/fftlength`,
`nsteps = floor(L / (s*R))` rows and `nfreqs = floor(f*R/2) + 1`
allocated columns; when the PSD estimator honours the `nfreqs` contract,
every row has `nfreqs` entries. -/
theorem C3_output_shape {α W P μ : Type}
    (psdFun : TimeSeries α μ → ℚ → ℚ → String → Option W → Option P → List ℚ)
    (udiv : μ → Option μ) (invHz : μ)
    (ts : TimeSeries α μ) (stride : ℚ) (flO fsO : Option ℚ)
    (method : String) (window : Option W) (plan : Option P)
    (S : Spectrogram μ)
    (hS : S = _from_timeseries psdFun udiv invHz ts stride flO fsO method
        window plan)
    (k : ℕ) (hk : stride * ts.sample_rate = (k : ℚ)) (hk1 : 1 ≤ k)
    (hf : 0 ≤ flO.getD stride * ts.sample_rate)
    (hpsd : ∀ sub : TimeSeries α μ,
      (psdFun sub (flO.getD stride) (fsO.getD (flO.getD stride)) method window
          plan).length
        = ⌊flO.getD stride * ts.sample_rate / 2⌋₊ + 1) :
    S.dt = stride
    ∧ S.df = 1 / flO.getD stride
    ∧ S.rows.length = ts.data.length / k
    ∧ S.ncols = ⌊flO.getD stride * ts.sample_rate / 2⌋₊ + 1
    ∧ ∀ r ∈ S.rows, r.length = S.ncols := by
  subst hS
  rw [_from_timeseries_eq psdFun udiv invHz ts stride flO fsO method window
    plan k hk]
  have hfl : (0 : ℚ) ≤ flO.getD stride * ts.sample_rate / 2 := by positivity
  have hfloor : (0 : ℤ) ≤ ⌊flO.getD stride * ts.sample_rate / 2⌋ :=
    Int.floor_nonneg.mpr hfl
  have hncols : (⌊flO.getD stride * ts.sample_rate / 2⌋ + 1).toNat
      = ⌊flO.getD stride * ts.sample_rate / 2⌋₊ + 1 := by
    rw [← Int.floor_toNat]
    omega
  refine ⟨rfl, rfl, by simp, hncols, ?_⟩
  intro r hr
  simp only [List.mem_map, List.mem_range] at hr
  obtain ⟨i, _, hi⟩ := hr
  rw [← hi, hpsd, hncols]

theorem C3_output_shape_witness :
    (_from_timeseries psd51 udivSucc 99 tsTen 2 (some 1) none "welch" none
        none).dt = 2
    ∧ (_from_timeseries psd51 udivSucc 99 tsTen 2 (some 1) none "welch" none
        none).df = 1
    ∧ (_from_timeseries psd51 udivSucc 99 tsTen 2 (some 1) none "welch" none
        none).rows.length = 5
    ∧ (_from_timeseries psd51 udivSucc 99 tsTen 2 (some 1) none "welch" none
        none).ncols = 51 := by
  have hfloor : ⌊tsTen.sample_rate / 2⌋₊ = 50 := by
    rw [show tsTen.sample_rate / 2 = ((50 : ℕ) : ℚ) by norm_num [tsTen]]
    exact Nat.floor_natCast 50
  have h := C3_output_shape psd51 udivSucc 99 tsTen 2 (some 1) none "welch"
    none none _ rfl 200 (by norm_num [tsTen]) (by norm_num)
    (by norm_num [tsTen])
    (fun sub => by simp [psd51, hfloor])
  obtain ⟨hdt, hdf, hlen, hnc, _⟩ := h
  refine ⟨hdt, by simpa using hdf, ?_, ?_⟩
  · rw [hlen]
    norm_num [tsTen]
  · rw [hnc]
    simp [hfloor]

/-- C5. Row `i` of the single-process builder is the PSD, with the
requested parameters, of exactly the sample range
`[i*stride_in_samples, (i+1)*stride_in_samples)`: a full `k`-sample
slice with no padding, consecutive rows covering disjoint ranges, and
samples beyond the last whole stride discarded (row count
`floor(L/k)`). -/
theorem C5_rows_are_stride_psds {α W P μ : Type}
    (psdFun : TimeSeries α μ → ℚ → ℚ → String → Option W → Option P → List ℚ)
    (udiv : μ → Option μ) (invHz : μ)
    (ts : TimeSeries α μ) (stride : ℚ) (flO fsO : Option ℚ)
    (method : String) (window : Option W) (plan : Option P)
    (k : ℕ) (hk : stride * ts.sample_rate = (k : ℚ)) (hk1 : 1 ≤ k) :
    (_from_timeseries psdFun udiv invHz ts stride flO fsO method window
        plan).rows.length = ts.data.length / k
    ∧ ∀ i, i < ts.data.length / k →
        (_from_timeseries psdFun udiv invHz ts stride flO fsO method window
            plan).rows[i]?
          = some (psdFun (tsSlice ts ((i * k : ℕ) : ℚ) ((i * k + k : ℕ) : ℚ))
              (flO.getD stride) (fsO.getD (flO.getD stride)) method window
              plan)
        ∧ (tsSlice ts ((i * k : ℕ) : ℚ) ((i * k + k : ℕ) : ℚ)).data
            = (ts.data.drop (i * k)).take k
        ∧ ((tsSlice ts ((i * k : ℕ) : ℚ) ((i * k + k : ℕ) : ℚ)).data).length
            = k := by
  rw [_from_timeseries_eq psdFun udiv invHz ts stride flO fsO method window
    plan k hk]
  refine ⟨by simp, ?_⟩
  intro i hi
  have hik : (i + 1) * k ≤ ts.data.length :=
    (Nat.le_div_iff_mul_le (by omega)).mp hi
  have hdata : (tsSlice ts ((i * k : ℕ) : ℚ) ((i * k + k : ℕ) : ℚ)).data
      = (ts.data.drop (i * k)).take k := by
    rw [tsSlice_natCast]
    rw [List.drop_take (i * k + k) (i * k),
      show i * k + k - i * k = k by omega]
  refine ⟨?_, hdata, ?_⟩
  · simp [List.getElem?_map, List.getElem?_range hi]
  · rw [hdata]
    simp only [List.length_take, List.length_drop]
    have hik2 : i * k + k ≤ ts.data.length := by
      have hexp : (i + 1) * k = i * k + k := by ring
      omega
    omega

theorem C5_rows_are_stride_psds_witness :
    (_from_timeseries psdProbe udivSucc 99 tsFive 1 none none "welch" none
        none).rows.length = tsFive.data.length / 1
    ∧ ((_from_timeseries psdProbe udivSucc 99 tsFive 1 none none "welch" none
          none).rows[1]?
        = some (psdProbe (tsSlice tsFive ((1 * 1 : ℕ) : ℚ)
            ((1 * 1 + 1 : ℕ) : ℚ)) 1 1 "welch" none none)
      ∧ (tsSlice tsFive ((1 * 1 : ℕ) : ℚ) ((1 * 1 + 1 : ℕ) : ℚ)).data
          = (tsFive.data.drop (1 * 1)).take 1
      ∧ ((tsSlice tsFive ((1 * 1 : ℕ) : ℚ) ((1 * 1 + 1 : ℕ) : ℚ)).data).length
          = 1) := by
  have h := C5_rows_are_stride_psds psdProbe udivSucc 99 tsFive 1 none none
    "welch" none none 1 (by norm_num [tsFive]) (by norm_num)
  exact ⟨h.1, h.2 1 (by decide)⟩

/-- C1. The multi-process builder (`maxprocesses > 1`) produces the same
rows — same count, same values — as the single-process builder on the
same input and parameters: the epoch-sorted concatenation of the worker
partials reproduces the per-stride PSD rows of the whole series. -/
theorem C1_parallel_equals_serial {α W P μ : Type}
    (psdFun : TimeSeries α μ → ℚ → ℚ → String → Option W → Option P → List ℚ)
    (udiv : μ → Option μ) (invHz : μ)
    (ts : TimeSeries α μ) (stride : ℚ) (flO fsO : Option ℚ)
    (method : String) (window : Option W) (plan : Option P)
    (maxprocesses minprocesssize : ℕ)
    (k : ℕ) (hk : stride * ts.sample_rate = (k : ℚ)) (hk1 : 1 ≤ k)
    (hR : 0 < ts.sample_rate) (hmp : 1 < maxprocesses) :
    (from_timeseries psdFun udiv invHz ts stride flO fsO method window plan
        maxprocesses minprocesssize).rows
      = (_from_timeseries psdFun udiv invHz ts stride flO fsO method window
          plan).rows := by
  by_cases h0 : ts.data.length / k = 0
  · have hn0 : nstepsOf ts.data.length (stride * ts.sample_rate) = 0 := by
      rw [hk, nstepsOf_eq_div]
      exact h0
    rw [from_timeseries_single_eq psdFun udiv invHz ts stride flO fsO method
      window plan maxprocesses minprocesssize (Or.inr hn0)]
    rw [_from_timeseries_eq psdFun udiv invHz ts stride flO fsO method window
      none k hk,
      _from_timeseries_eq psdFun udiv invHz ts stride flO fsO method window
      plan k hk]
    simp [h0]
  · rw [from_timeseries_multi_rows psdFun udiv invHz ts stride flO fsO method
      window plan maxprocesses minprocesssize k hk hk1 hR (by omega) h0,
      _from_timeseries_eq psdFun udiv invHz ts stride flO fsO method window
      plan k hk]

theorem C1_parallel_equals_serial_witness :
    (from_timeseries psdProbe udivSucc 99 tsTen 2 none none "welch" none
        (some 3) 2 2).rows
      = (_from_timeseries psdProbe udivSucc 99 tsTen 2 none none "welch" none
          (some 3)).rows :=
  C1_parallel_equals_serial psdProbe udivSucc 99 tsTen 2 none none "welch"
    none (some 3) 2 2 200 (by norm_num [tsTen]) (by norm_num)
    (by norm_num [tsTen]) (by norm_num)

/-- C2. The worker partials of a multi-process run, taken in epoch order
(their epochs are strictly increasing, so the sort of line 181 keeps
launch order), tile the analysed range: worker `i` starts at
`epoch + i*stepperproc*stride`, holds `min stepperproc (nsteps - i*stepperproc)`
rows of duration `stride`, consecutive spans never overlap, a span ends
exactly where the next non-empty span begins, and the row counts sum to
`nsteps = floor(L / stride_in_samples)` (trailing partial strides
dropped). -/
theorem C2_partials_tile {α W P μ : Type}
    (psdFun : TimeSeries α μ → ℚ → ℚ → String → Option W → Option P → List ℚ)
    (udiv : μ → Option μ) (invHz : μ)
    (ts : TimeSeries α μ) (stride fl fs : ℚ)
    (method : String) (window : Option W) (plan : Option P)
    (minprocesssize : ℕ)
    (k n p q : ℕ) (parts : List (Spectrogram μ))
    (hk : stride * ts.sample_rate = (k : ℚ)) (hk1 : 1 ≤ k)
    (hR : 0 < ts.sample_rate)
    (hn : n = nstepsOf ts.data.length (stride * ts.sample_rate))
    (hn1 : n ≠ 0)
    (hp : p = nprocOf n minprocesssize)
    (hq : q = stepperprocOf n p)
    (hparts : parts = workerSpecgrams psdFun udiv invHz ts stride fl fs method
        window plan p ((q : ℚ) * ts.sample_rate * stride)) :
    n = ts.data.length / k
    ∧ parts.length = p
    ∧ (parts.map (fun s => s.rows.length)).sum = n
    ∧ (parts.getD 0 emptySpec).epoch = ts.epoch
    ∧ (∀ i, i < p →
        (parts.getD i emptySpec).epoch
            = ts.epoch + ((i * q : ℕ) : ℚ) * stride
        ∧ (parts.getD i emptySpec).rows.length = min q (n - i * q)
        ∧ (parts.getD i emptySpec).dt = stride)
    ∧ ∀ i, i + 1 < p →
        (parts.getD i emptySpec).epoch < (parts.getD (i + 1) emptySpec).epoch
        ∧ (parts.getD i emptySpec).epoch
            + ((parts.getD i emptySpec).rows.length : ℚ) * stride
            ≤ (parts.getD (i + 1) emptySpec).epoch
        ∧ ((parts.getD (i + 1) emptySpec).rows.length ≠ 0 →
            (parts.getD i emptySpec).epoch
              + ((parts.getD i emptySpec).rows.length : ℚ) * stride
              = (parts.getD (i + 1) emptySpec).epoch) := by
  have hnd : n = ts.data.length / k := by
    rw [hn, hk, nstepsOf_eq_div]
  have hp1 : 1 ≤ p := by
    rw [hp]
    exact le_max_left _ _
  have hq1 : 1 ≤ q := by
    rw [hq]
    exact stepperprocOf_pos n p (by omega) hp1
  have hnpq : n ≤ p * q := by
    rw [hq]
    exact stepperprocOf_mul_ge n p hp1
  have hkQ : (0 : ℚ) < (k : ℚ) := by exact_mod_cast hk1
  have hstride : stride = (k : ℚ) / ts.sample_rate := by
    rw [eq_div_iff hR.ne']
    exact hk
  have hs : 0 < stride := hstride ▸ div_pos hkQ hR
  have hep : ∀ i : ℕ,
      ts.epoch + ((i * (q * k) : ℕ) : ℚ) / ts.sample_rate
        = ts.epoch + ((i * q : ℕ) : ℚ) * stride := by
    intro i
    congr 1
    rw [div_eq_iff hR.ne']
    push_cast
    rw [← hk]
    ring
  have hgetD : ∀ i, i < p → parts.getD i emptySpec
      = { rows := (List.range (min q (ts.data.length / k - i * q))).map
            (fun j => psdFun (tsSlice ts (((i * q + j) * k : ℕ) : ℚ)
                (((i * q + j) * k + k : ℕ) : ℚ)) fl fs method window plan)
          ncols := (⌊fl * ts.sample_rate / 2⌋ + 1).toNat
          epoch := ts.epoch + ((i * (q * k) : ℕ) : ℚ) / ts.sample_rate
          dt := stride
          df := 1 / fl
          f0 := 0
          unit := if min q (ts.data.length / k - i * q) = 0 then none
                  else some ((udiv ts.unit).getD invHz)
          channel := ts.channel } := by
    intro i hi
    rw [hparts, workerSpecgrams_eq psdFun udiv invHz ts stride fl fs method
      window plan k q p hk hk1]
    exact getD_map_range _ p i _ hi
  have hlen : ∀ i, i < p →
      (parts.getD i emptySpec).rows.length = min q (n - i * q) := by
    intro i hi
    rw [hgetD i hi]
    simp [← hnd]
  have hlens : parts.map (fun s => s.rows.length)
      = (List.range p).map (fun i => min q (n - i * q)) := by
    rw [hparts, workerSpecgrams_eq psdFun udiv invHz ts stride fl fs method
      window plan k q p hk hk1, List.map_map]
    refine List.map_congr_left fun i _ => ?_
    simp [← hnd]
  refine ⟨hnd, by rw [hparts, workerSpecgrams]; simp, ?_, ?_, ?_, ?_⟩
  · rw [hlens]
    exact sum_min_strides q p n hnpq
  · rw [hgetD 0 (by omega)]
    simp
  · intro i hi
    refine ⟨?_, hlen i hi, ?_⟩
    · rw [hgetD i hi]
      exact hep i
    · rw [hgetD i hi]
  · intro i hi
    have hepi : (parts.getD i emptySpec).epoch
        = ts.epoch + ((i * q : ℕ) : ℚ) * stride := by
      rw [hgetD i (by omega)]
      exact hep i
    have hepi1 : (parts.getD (i + 1) emptySpec).epoch
        = ts.epoch + (((i + 1) * q : ℕ) : ℚ) * stride := by
      rw [hgetD (i + 1) (by omega)]
      exact hep (i + 1)
    have hexp : (i + 1) * q = i * q + q := by ring
    refine ⟨?_, ?_, ?_⟩
    · rw [hepi, hepi1]
      have hlt : ((i * q : ℕ) : ℚ) < (((i + 1) * q : ℕ) : ℚ) := by
        exact_mod_cast (by omega : i * q < (i + 1) * q)
      have := mul_lt_mul_of_pos_right hlt hs
      linarith
    · rw [hepi, hepi1, hlen i (by omega)]
      have hnat : i * q + min q (n - i * q) ≤ (i + 1) * q := by omega
      have hcast : ((i * q : ℕ) : ℚ) + ((min q (n - i * q) : ℕ) : ℚ)
          ≤ (((i + 1) * q : ℕ) : ℚ) := by exact_mod_cast hnat
      have := mul_le_mul_of_nonneg_right hcast hs.le
      push_cast at this ⊢
      linarith [this]
    · intro hne
      rw [hlen (i + 1) (by omega)] at hne
      have hfull : min q (n - i * q) = q := by omega
      rw [hepi, hepi1, hlen i (by omega), hfull]
      push_cast
      ring

theorem C2_partials_tile_witness :
    (5 : ℕ) = tsTen.data.length / 200
    ∧ ((workerSpecgrams psdProbe udivSucc 99 tsTen 2 2 2 "welch" none none 2
        (((3 : ℕ) : ℚ) * tsTen.sample_rate * 2)).map
          (fun s => s.rows.length)).sum = 5
    ∧ ((workerSpecgrams psdProbe udivSucc 99 tsTen 2 2 2 "welch" none none 2
        (((3 : ℕ) : ℚ) * tsTen.sample_rate * 2)).getD 0 emptySpec).epoch
        = tsTen.epoch := by
  have h := C2_partials_tile psdProbe udivSucc 99 tsTen 2 2 2 "welch" none
    none 2 200 5 2 3 _ (by norm_num [tsTen]) (by norm_num)
    (by norm_num [tsTen]) tsTen_nsteps.symm (by norm_num) (by decide)
    (by rw [stepperprocOf_eq 5 2 (by norm_num)]) rfl
  exact ⟨h.1, h.2.2.1, h.2.2.2.1⟩

/-- C6. Partition sizing of the multi-process path:
`nproc = max(1, floor(nsteps/minprocesssize))`,
`stepperproc = ceil(nsteps/nproc) = (nsteps + nproc - 1) / nproc`, and
worker `i` receives exactly the contiguous sample range
`[i*stepperproc*k, (i+1)*stepperproc*k)` — `stepperproc` whole strides —
clipped at the end of the series, so the last partition may be shorter
or empty. -/
theorem C6_partition_sizing {α W P μ : Type}
    (psdFun : TimeSeries α μ → ℚ → ℚ → String → Option W → Option P → List ℚ)
    (udiv : μ → Option μ) (invHz : μ)
    (ts : TimeSeries α μ) (stride fl fs : ℚ)
    (method : String) (window : Option W) (plan : Option P)
    (minprocesssize : ℕ)
    (k n p q : ℕ)
    (hk : stride * ts.sample_rate = (k : ℚ)) (hk1 : 1 ≤ k)
    (hn : n = nstepsOf ts.data.length (stride * ts.sample_rate))
    (hp : p = nprocOf n minprocesssize)
    (hq : q = stepperprocOf n p) :
    p = max 1 (n / minprocesssize)
    ∧ q = (n + p - 1) / p
    ∧ (workerSpecgrams psdFun udiv invHz ts stride fl fs method window plan p
        ((q : ℚ) * ts.sample_rate * stride)).length = p
    ∧ ∀ i, i < p →
        (workerSpecgrams psdFun udiv invHz ts stride fl fs method window plan
            p ((q : ℚ) * ts.sample_rate * stride)).getD i emptySpec
          = _from_timeseries psdFun udiv invHz
              (tsSlice ts ((i * (q * k) : ℕ) : ℚ)
                (((i + 1) * (q * k) : ℕ) : ℚ))
              stride (some fl) (some fs) method window plan
        ∧ (tsSlice ts ((i * (q * k) : ℕ) : ℚ)
              (((i + 1) * (q * k) : ℕ) : ℚ)).data
            = (ts.data.drop (i * (q * k))).take (q * k)
        ∧ ((tsSlice ts ((i * (q * k) : ℕ) : ℚ)
              (((i + 1) * (q * k) : ℕ) : ℚ)).data).length
            = min (q * k) (ts.data.length - i * (q * k)) := by
  have hp1 : 1 ≤ p := by
    rw [hp]
    exact le_max_left _ _
  have hbound : ∀ x : ℕ, (x : ℚ) * ((q : ℚ) * ts.sample_rate * stride)
      = ((x * (q * k) : ℕ) : ℚ) := by
    intro x
    push_cast
    calc (x : ℚ) * ((q : ℚ) * ts.sample_rate * stride)
        = (x : ℚ) * (q : ℚ) * (stride * ts.sample_rate) := by ring
      _ = (x : ℚ) * ((q : ℚ) * (k : ℚ)) := by rw [hk]; ring
  refine ⟨by rw [hp, nprocOf], by rw [hq, stepperprocOf_eq n p hp1], ?_, ?_⟩
  · rw [workerSpecgrams]
    simp
  · intro i hi
    have hx : (i + 1) * (q * k) = i * (q * k) + q * k := by ring
    refine ⟨?_, ?_, ?_⟩
    · rw [workerSpecgrams, getD_map_range _ p i _ hi]
      rw [show ((i : ℚ) * ((q : ℚ) * ts.sample_rate * stride))
          = ((i * (q * k) : ℕ) : ℚ) from hbound i]
      rw [show (((i : ℚ) + 1) * ((q : ℚ) * ts.sample_rate * stride))
          = (((i + 1) * (q * k) : ℕ) : ℚ) from by
        rw [show ((i : ℚ) + 1) = (((i + 1 : ℕ)) : ℚ) by push_cast; ring,
          hbound (i + 1)]]
    · rw [tsSlice_natCast]
      rw [List.drop_take ((i + 1) * (q * k)) (i * (q * k)),
        show (i + 1) * (q * k) - i * (q * k) = q * k by omega]
    · rw [tsSlice_natCast]
      simp only [List.length_drop, List.length_take]
      omega

theorem C6_partition_sizing_witness :
    (2 : ℕ) = max 1 (5 / 2)
    ∧ (3 : ℕ) = (5 + 2 - 1) / 2
    ∧ (workerSpecgrams psdProbe udivSucc 99 tsTen 2 2 2 "welch" none none 2
        (((3 : ℕ) : ℚ) * tsTen.sample_rate * 2)).length = 2
    ∧ (tsSlice tsTen ((1 * (3 * 200) : ℕ) : ℚ)
          (((1 + 1) * (3 * 200) : ℕ) : ℚ)).data
        = (tsTen.data.drop (1 * (3 * 200))).take (3 * 200) := by
  have h := C6_partition_sizing psdProbe udivSucc 99 tsTen 2 2 2 "welch" none
    none 2 200 5 2 3 (by norm_num [tsTen]) (by norm_num) tsTen_nsteps.symm
    (by decide) (by rw [stepperprocOf_eq 5 2 (by norm_num)])
  exact ⟨h.1, h.2.1, h.2.2.1, (h.2.2.2 1 (by norm_num)).2.1⟩
